import Mathlib

/-!
Shallow embedding of src/interfaces/ecpg/ecpglib/memory.c: the ecpg
auto-memory registry (a thread-local singly linked list of `struct auto_mem`
nodes) together with the allocation wrappers `ecpg_alloc` and `ecpg_strdup`.

Modelling decisions, each traceable to the C source:

* A `struct auto_mem` node stores, in one pointer-sized slot, a union of
  `void *pointer` and the one-bit bitfield `uintptr_t auto_clear_disabled:1`.
  We model that slot as a single `Nat` word: reading `pointer` reads the
  whole word, reading `auto_clear_disabled` reads bit 0 (`w % 2`), writing
  the bitfield rewrites bit 0 and keeps the other bits.  Heap pointers
  returned by the platform allocator are aligned, i.e. even, and the code
  relies on exactly that; theorems therefore carry evenness hypotheses where
  the C contract guarantees alignment.

* The thread-local slot (`get_auto_allocs` / `set_auto_allocs`) holding the
  head of the list is modelled as a `List Nat` of node words, head first;
  `[]` is the unset (NULL) slot.

* The platform allocator is external nondeterminism: calls that can fail
  take an explicit oracle (`Option Nat` result of calloc, or a `Bool`
  success flag).  `ecpg_free` calls are recorded in traces: the list of
  pointer words passed to `ecpg_free(act->pointer)`, and a count of the
  `ecpg_free(act)` node releases.

* `ecpg_raise(..., ECPG_OUT_OF_MEMORY, ...)` is recorded as a `Bool`
  "raised" flag; `ecpg_log` diagnostics as `Bool` flags where a claim
  mentions them.
-/

namespace EcpgMemory

/-- Clear bit 0 of a node word: the effect of `am->auto_clear_disabled = 0`
on the union slot. -/
def clearBit (w : Nat) : Nat := 2 * (w / 2)

/-- Set bit 0 of a node word: the effect of `am->auto_clear_disabled = 1`
on the union slot. -/
def setBit (w : Nat) : Nat := 2 * (w / 2) + 1

/-- Read the `auto_clear_disabled` bitfield of a node word (bit 0). -/
def getBit (w : Nat) : Bool := w % 2 = 1

/-- Model of `ecpg_alloc(size, lineno)`: calls `calloc(1L, size)` (the
oracle), and on a NULL result calls `ecpg_raise(..., ECPG_OUT_OF_MEMORY, ...)`
and returns NULL.  Result: (returned pointer, whether OOM was raised).
The code inspects only the calloc result, never `size` itself. -/
def ecpg_alloc (calloc : Nat → Option Nat) (size : Nat) : Option Nat × Bool :=
  match calloc size with
  | none => (none, true)
  | some p => (some p, false)

/-- Model of `ecpg_strdup(string, lineno)`: returns NULL at once (no error)
for a NULL input; otherwise duplicates via `strdup` (success oracle
`strdupOk`), raising OOM exactly on strdup failure.  Result:
(returned string, whether OOM was raised). -/
def ecpg_strdup (string : Option String) (strdupOk : Bool) : Option String × Bool :=
  match string with
  | none => (none, false)
  | some s => if strdupOk then (some s, false) else (none, true)

/-- Model of `ecpg_add_mem(ptr, lineno)`.  `nodeAllocOk` is the success of
the `ecpg_alloc(sizeof(struct auto_mem), lineno)` call for the new node
(on failure `ecpg_alloc` raises OOM and `ecpg_add_mem` returns false with
the list untouched).  On success the new node stores `ptr` in its union
slot, links to the old head, moves the old head's `auto_clear_disabled`
bit to itself if it was set, and becomes the new head.
Result: (returned bool, new list state). -/
def ecpg_add_mem (ptr : Nat) (nodeAllocOk : Bool) (s : List Nat) : Bool × List Nat :=
  if nodeAllocOk then
    match s with
    | [] => (true, [ptr])
    | h :: t => (true, (if h % 2 = 1 then setBit ptr else ptr) :: clearBit h :: t)
  else (false, s)

/-- Model of `ecpg_auto_alloc(size, lineno)`.  `payload` is the result of
the initial `ecpg_alloc(size, lineno)` (`none` = failed, OOM already
raised); `nodeAllocOk` is the success of the node allocation inside
`ecpg_add_mem`.  When `ecpg_add_mem` fails, the fresh payload is passed to
`ecpg_free` before NULL is returned.  Result: (returned pointer, pointer
words passed to `ecpg_free`, new list state). -/
def ecpg_auto_alloc (payload : Option Nat) (nodeAllocOk : Bool) (s : List Nat) :
    Option Nat × List Nat × List Nat :=
  match payload with
  | none => (none, [], s)
  | some ptr =>
    match ecpg_add_mem ptr nodeAllocOk s with
    | (true, s') => (some ptr, [], s')
    | (false, s') => (none, [ptr], s')

/-- Model of `ECPGfree_auto_mem()`.  If the list is non-empty: first clear
the head's `auto_clear_disabled` bit if set (logging a diagnostic), then
walk the list calling `ecpg_free(act->pointer)` and `ecpg_free(act)` on
every node, and reset the slot to NULL.  Result: (pointer words passed to
`ecpg_free`, count of node `ecpg_free` calls, new list state). -/
def ECPGfree_auto_mem (s : List Nat) : List Nat × Nat × List Nat :=
  match s with
  | [] => ([], 0, [])
  | h :: t => (clearBit h :: t, (h :: t).length, [])

/-- Result of `ECPGdisable_auto_mem_clear_on_exec()`: either normal
completion carrying the "already disabled" warning flag and the new list
state, or the null-pointer dereference the code performs when the
placeholder allocation fails (`am` is NULL and the code still executes
`am->auto_clear_disabled = 1`). -/
inductive DisableResult
  | ok (warnedAlreadyDisabled : Bool) (s : List Nat)
  | nullDeref
deriving DecidableEq, Repr

/-- Model of `ECPGdisable_auto_mem_clear_on_exec()`.  With a non-empty
list: warn if the head's bit is already set, then set the head's bit.
With an empty list: allocate a zero-filled placeholder node
(`nodeAllocOk` oracle), store it in the slot, and set its bit — when the
allocation fails, `am` is NULL and `am->auto_clear_disabled = 1`
dereferences NULL. -/
def ECPGdisable_auto_mem_clear_on_exec (nodeAllocOk : Bool) (s : List Nat) : DisableResult :=
  match s with
  | h :: t => .ok (h % 2 = 1) (setBit h :: t)
  | [] =>
    if nodeAllocOk then .ok false [setBit 0]
    else .nullDeref

/-- Model of `ecpg_clear_auto_mem()`.  With a non-empty list whose head has
`auto_clear_disabled` set: log and return, touching nothing.  Otherwise
walk the list calling `ecpg_free(act)` on every node — never
`ecpg_free(act->pointer)` — and reset the slot to NULL.  Result:
(pointer words passed to `ecpg_free`, count of node `ecpg_free` calls,
new list state). -/
def ecpg_clear_auto_mem (s : List Nat) : List Nat × Nat × List Nat :=
  match s with
  | [] => ([], 0, [])
  | h :: t =>
    if h % 2 = 1 then ([], 0, h :: t)
    else ([], (h :: t).length, [])

/-- A successful registration step: `regNew p` is `ecpg_auto_alloc`
returning payload `p`, `regExisting p` is `ecpg_add_mem(p, ...)`. -/
inductive RegOp
  | regNew (p : Nat)
  | regExisting (p : Nat)
deriving DecidableEq, Repr

/-- The pointer a registration step hands to the registry. -/
def RegOp.ptr : RegOp → Nat
  | .regNew p => p
  | .regExisting p => p

/-- Effect of one successful registration on the thread's list. -/
def regStep (s : List Nat) : RegOp → List Nat
  | .regNew p => (ecpg_auto_alloc (some p) true s).2.2
  | .regExisting p => (ecpg_add_mem p true s).2

/-- Run a sequence of successful registrations on the empty (unset) list. -/
def regRun (ops : List RegOp) : List Nat := ops.foldl regStep []

/-- One registry operation, for reachability of registry states: a
successful registration, a full release, a (successful) disable, or a soft
clear. -/
inductive MOp
  | add (p : Nat)
  | freeAll
  | disable
  | softClear
deriving DecidableEq, Repr

/-- Effect of one registry operation on the thread's list state. -/
def mstep (s : List Nat) : MOp → List Nat
  | .add p => (ecpg_add_mem p true s).2
  | .freeAll => (ECPGfree_auto_mem s).2.2
  | .disable =>
    match ECPGdisable_auto_mem_clear_on_exec true s with
    | .ok _ s' => s'
    | .nullDeref => s
  | .softClear => (ecpg_clear_auto_mem s).2.2

/-- Registry state reached from the empty list by a sequence of operations. -/
def mrun (ops : List MOp) : List Nat := ops.foldl mstep []

/-- "At most the head node carries `suppress_auto_clear`": every node word
in the tail has bit 0 clear. -/
def tailEven (s : List Nat) : Prop := ∀ w ∈ s.tail, w % 2 = 0

/-- All node words in the list have bit 0 clear (no suppression anywhere). -/
def allEven (s : List Nat) : Prop := ∀ w ∈ s, w % 2 = 0

-- Basic bit lemmas -----------------------------------------------------------

theorem clearBit_even (w : Nat) : clearBit w % 2 = 0 := by
  simp [clearBit, Nat.mul_mod_right]

theorem setBit_odd (w : Nat) : setBit w % 2 = 1 := by
  unfold setBit
  omega

theorem clearBit_of_even {w : Nat} (h : w % 2 = 0) : clearBit w = w := by
  unfold clearBit
  omega

theorem clearBit_setBit (w : Nat) : clearBit (setBit w) = clearBit w := by
  unfold clearBit setBit
  omega

theorem setBit_setBit (w : Nat) : setBit (setBit w) = setBit w := by
  unfold setBit
  omega

-- Behaviour on all-even (unsuppressed, aligned) lists -------------------------

/-- A successful `ecpg_add_mem` on an unsuppressed list with an aligned
pointer is a plain cons. -/
theorem ecpg_add_mem_cons {p : Nat} {s : List Nat}
    (hs : allEven s) : ecpg_add_mem p true s = (true, p :: s) := by
  cases s with
  | nil => rfl
  | cons h t =>
    have hh : h % 2 = 0 := hs h (List.mem_cons_self h t)
    simp [ecpg_add_mem, hh, clearBit_of_even hh]

theorem regStep_cons {s : List Nat} {op : RegOp}
    (hs : allEven s) : regStep s op = op.ptr :: s := by
  cases op with
  | regNew p =>
    simp only [RegOp.ptr]
    simp [regStep, ecpg_auto_alloc, ecpg_add_mem_cons hs]
  | regExisting p =>
    simp only [RegOp.ptr]
    simp [regStep, ecpg_add_mem_cons hs]

theorem regRun_go (ops : List RegOp) :
    ∀ s : List Nat, (∀ op ∈ ops, RegOp.ptr op % 2 = 0) → allEven s →
      ops.foldl regStep s = (ops.map RegOp.ptr).reverse ++ s := by
  induction ops with
  | nil => intro s _ _; simp
  | cons op rest ih =>
    intro s hops hs
    have hp : op.ptr % 2 = 0 := hops op (List.mem_cons_self op rest)
    have hs' : allEven (op.ptr :: s) := by
      intro w hw
      rcases List.mem_cons.mp hw with h | h
      · exact h ▸ hp
      · exact hs w h
    have hrest : ∀ o ∈ rest, RegOp.ptr o % 2 = 0 :=
      fun o ho => hops o (List.mem_cons_of_mem op ho)
    calc (op :: rest).foldl regStep s
        = rest.foldl regStep (regStep s op) := by simp [List.foldl_cons]
      _ = rest.foldl regStep (op.ptr :: s) := by rw [regStep_cons hs]
      _ = (rest.map RegOp.ptr).reverse ++ (op.ptr :: s) := ih _ hrest hs'
      _ = ((op :: rest).map RegOp.ptr).reverse ++ s := by simp

/-- After a run of successful registrations with aligned pointers, the
thread's list holds exactly the registered pointers, most recent first. -/
theorem regRun_eq (ops : List RegOp) (hops : ∀ op ∈ ops, RegOp.ptr op % 2 = 0) :
    regRun ops = (ops.map RegOp.ptr).reverse := by
  have := regRun_go ops [] hops (by intro w hw; cases hw)
  simpa [regRun] using this

theorem regRun_allEven (ops : List RegOp) (hops : ∀ op ∈ ops, RegOp.ptr op % 2 = 0) :
    allEven (regRun ops) := by
  rw [regRun_eq ops hops]
  intro w hw
  rw [List.mem_reverse] at hw
  rcases List.mem_map.mp hw with ⟨op, hop, rfl⟩
  exact hops op hop

/-- On a list with no suppression bit anywhere, `ECPGfree_auto_mem` passes
exactly the stored pointer words to `ecpg_free`, frees one node per list
entry, and resets the slot. -/
theorem ECPGfree_of_allEven {s : List Nat} (hs : allEven s) :
    ECPGfree_auto_mem s = (s, s.length, []) := by
  cases s with
  | nil => rfl
  | cons h t =>
    have hh : h % 2 = 0 := hs h (List.mem_cons_self h t)
    simp [ECPGfree_auto_mem, clearBit_of_even hh]

/-- One registry operation preserves the head-only-flag invariant. -/
theorem mstep_tailEven {s : List Nat} {op : MOp}
    (hp : ∀ p, op = MOp.add p → p % 2 = 0) (hs : tailEven s) :
    tailEven (mstep s op) := by
  cases op with
  | add p =>
    have hpe : p % 2 = 0 := hp p rfl
    cases s with
    | nil => intro w hw; cases hw
    | cons h t =>
      intro w hw
      simp only [mstep, ecpg_add_mem, if_pos] at hw
      rcases List.mem_cons.mp hw with rfl | hw'
      · exact clearBit_even h
      · exact hs w hw'
  | freeAll => intro w hw; simp [mstep, ECPGfree_auto_mem] at hw; cases s <;> simp_all
  | disable =>
    cases s with
    | nil => intro w hw; simp [mstep, ECPGdisable_auto_mem_clear_on_exec] at hw
    | cons h t =>
      intro w hw
      simp only [mstep, ECPGdisable_auto_mem_clear_on_exec, List.tail_cons] at hw
      exact hs w hw
  | softClear =>
    cases s with
    | nil => intro w hw; simp [mstep, ecpg_clear_auto_mem] at hw
    | cons h t =>
      by_cases hh : h % 2 = 1
      · simpa [mstep, ecpg_clear_auto_mem, hh] using hs
      · intro w hw; simp [mstep, ecpg_clear_auto_mem, hh] at hw

theorem mrun_go (ops : List MOp) :
    ∀ s : List Nat, (∀ p, MOp.add p ∈ ops → p % 2 = 0) → tailEven s →
      tailEven (ops.foldl mstep s) := by
  induction ops with
  | nil => intro s _ hs; simpa using hs
  | cons op rest ih =>
    intro s hops hs
    simp only [List.foldl_cons]
    refine ih (mstep s op) (fun p hp => hops p (List.mem_cons_of_mem op hp)) ?_
    exact mstep_tailEven (fun p hop => hops p (hop ▸ List.mem_cons_self op rest)) hs

-- Claim theorems --------------------------------------------------------------

/-- Claim C1: for every sequence of successful `ecpg_auto_alloc` and
`ecpg_add_mem` registrations (with aligned pointers, as the platform
allocator guarantees) followed by `ECPGfree_auto_mem`, the pointers passed
to `ecpg_free` are exactly the registered ones (most recent first), each
registered pointer is freed exactly as often as it was registered — hence
exactly once when the registered pointers are distinct — and the thread's
list is reset to empty (unset). -/
theorem C1_release_all_frees_each_registered_pointer_once (ops : List RegOp)
    (hops : ∀ op ∈ ops, RegOp.ptr op % 2 = 0) :
    (ECPGfree_auto_mem (regRun ops)).1 = (ops.map RegOp.ptr).reverse ∧
    (ECPGfree_auto_mem (regRun ops)).2.2 = [] ∧
    (∀ p, ((ECPGfree_auto_mem (regRun ops)).1).count p = (ops.map RegOp.ptr).count p) ∧
    ((ops.map RegOp.ptr).Nodup →
      ∀ p ∈ ops.map RegOp.ptr, ((ECPGfree_auto_mem (regRun ops)).1).count p = 1) := by
  have hfree : ECPGfree_auto_mem (regRun ops) =
      (regRun ops, (regRun ops).length, []) :=
    ECPGfree_of_allEven (regRun_allEven ops hops)
  have heq := regRun_eq ops hops
  refine ⟨by rw [hfree, heq], by rw [hfree], ?_, ?_⟩
  · intro p
    rw [hfree, heq]
    simp [List.count_reverse]
  · intro hnd p hp
    rw [hfree, heq]
    rw [List.count_reverse]
    exact List.count_eq_one_of_mem hnd hp

/-- Claim C1 witness: two registrations (payloads 4 and 6) then a full
release free exactly those two pointers, newest first, and unset the list. -/
theorem C1_release_all_frees_each_registered_pointer_once_witness :
    (ECPGfree_auto_mem (regRun [RegOp.regNew 4, RegOp.regExisting 6])).1 = [6, 4] ∧
    (ECPGfree_auto_mem (regRun [RegOp.regNew 4, RegOp.regExisting 6])).2.2 = [] := by
  have h := C1_release_all_frees_each_registered_pointer_once
    [RegOp.regNew 4, RegOp.regExisting 6] (by decide)
  exact ⟨by simpa using h.1, h.2.1⟩

/-- Claim C2: every registry state reachable by any sequence of operations
(with aligned pointers) has the suppression bit clear on every non-head
node, and a prepend by `ecpg_add_mem` migrates the flag: if the old head's
bit is set, the new head's bit is set and the old head's bit is cleared. -/
theorem C2_suppress_flag_only_on_head (ops : List MOp)
    (hops : ∀ p, MOp.add p ∈ ops → p % 2 = 0) :
    tailEven (mrun ops) ∧
    (∀ p h t, h % 2 = 1 →
      (ecpg_add_mem p true (h :: t)).2 = setBit p :: clearBit h :: t ∧
      setBit p % 2 = 1 ∧ clearBit h % 2 = 0) := by
  constructor
  · exact mrun_go ops [] hops (by intro w hw; cases hw)
  · intro p h t hh
    refine ⟨?_, setBit_odd p, clearBit_even h⟩
    simp [ecpg_add_mem, hh]

/-- Claim C2 witness: after adding 4, disabling, then adding 6, only the
head can carry the flag; and prepending 6 onto a flagged head 5 moves the
flag. -/
theorem C2_suppress_flag_only_on_head_witness :
    tailEven (mrun [MOp.add 4, MOp.disable, MOp.add 6]) ∧
    (ecpg_add_mem 6 true [5, 2]).2 = [7, 4, 2] := by
  have h := C2_suppress_flag_only_on_head [MOp.add 4, MOp.disable, MOp.add 6]
    (by intro p hp; simp at hp; omega)
  refine ⟨h.1, ?_⟩
  have h2 := (h.2 6 5 [2] (by decide)).1
  simpa [setBit, clearBit] using h2

/-- Claim C3: after `ECPGdisable_auto_mem_clear_on_exec`, a
`ecpg_clear_auto_mem` call frees nothing and leaves the list unchanged
(every tracked pointer stays alive and reachable), and a subsequent
`ECPGfree_auto_mem` passes each registered (aligned, non-null) pointer to
`ecpg_free` exactly as often as it was registered and unsets the list: the
suppress / soft-clear / hard-clear sequence frees everything exactly once
in total. -/
theorem C3_suppress_softclear_hardclear_frees_once (ops : List RegOp)
    (hops : ∀ op ∈ ops, RegOp.ptr op % 2 = 0 ∧ RegOp.ptr op ≠ 0)
    (w : Bool) (s1 : List Nat)
    (hdis : ECPGdisable_auto_mem_clear_on_exec true (regRun ops) = .ok w s1) :
    ecpg_clear_auto_mem s1 = ([], 0, s1) ∧
    (∀ p, p ≠ 0 →
      ((ECPGfree_auto_mem s1).1).count p = (ops.map RegOp.ptr).count p) ∧
    (ECPGfree_auto_mem s1).2.2 = [] := by
  have hev : ∀ op ∈ ops, RegOp.ptr op % 2 = 0 := fun op hop => (hops op hop).1
  have heq := regRun_eq ops hev
  have hall := regRun_allEven ops hev
  cases hs0 : regRun ops with
  | nil =>
    rw [hs0] at hdis
    simp only [ECPGdisable_auto_mem_clear_on_exec, if_pos, DisableResult.ok.injEq] at hdis
    obtain ⟨rfl, rfl⟩ := hdis
    have hmap : ops.map RegOp.ptr = [] := by
      have := heq.symm.trans hs0
      simpa using this
    refine ⟨by decide, ?_, by decide⟩
    intro p hp
    rw [hmap]
    have h0 : (ECPGfree_auto_mem [setBit 0]).1 = [0] := by decide
    rw [h0, List.count_eq_zero.mpr (by simpa using hp)]
    simp
  | cons h t =>
    rw [hs0] at hdis
    simp only [ECPGdisable_auto_mem_clear_on_exec, DisableResult.ok.injEq] at hdis
    obtain ⟨rfl, rfl⟩ := hdis
    have hh : h % 2 = 0 := by
      have := hall
      rw [hs0] at this
      exact this h (List.mem_cons_self h t)
    refine ⟨by simp [ecpg_clear_auto_mem, setBit_odd h], ?_, by simp [ECPGfree_auto_mem]⟩
    intro p hp
    have htrace : (ECPGfree_auto_mem (setBit h :: t)).1 = h :: t := by
      simp [ECPGfree_auto_mem, clearBit_setBit, clearBit_of_even hh]
    rw [htrace, ← hs0, heq]
    simp [List.count_reverse]

/-- Claim C3 witness: register 4 and 6, disable auto-clear, soft-clear is
inert, and the hard clear still frees 4 and 6 exactly once each. -/
theorem C3_suppress_softclear_hardclear_frees_once_witness :
    ecpg_clear_auto_mem [7, 4] = ([], 0, [7, 4]) ∧
    ((ECPGfree_auto_mem [7, 4]).1).count 6 = 1 ∧
    ((ECPGfree_auto_mem [7, 4]).1).count 4 = 1 ∧
    (ECPGfree_auto_mem [7, 4]).2.2 = [] := by
  have h := C3_suppress_softclear_hardclear_frees_once
    [RegOp.regNew 4, RegOp.regExisting 6] (by decide) false [7, 4] (by decide)
  refine ⟨h.1, ?_, ?_, h.2.2⟩
  · simpa using h.2.1 6 (by decide)
  · simpa using h.2.1 4 (by decide)

/-- Claim C4: with the head's suppression bit clear, `ecpg_clear_auto_mem`
passes no owned pointer to `ecpg_free`, frees every tracking node of the
list (one node `ecpg_free` per entry), and resets the thread's list to
empty. -/
theorem C4_softclear_frees_nodes_only (h : Nat) (t : List Nat) (hflag : h % 2 = 0) :
    ecpg_clear_auto_mem (h :: t) = ([], (h :: t).length, []) := by
  simp [ecpg_clear_auto_mem, hflag]

/-- Claim C4 witness: soft clear on an unsuppressed two-node list frees the
two nodes, no pointers, and empties the list. -/
theorem C4_softclear_frees_nodes_only_witness :
    ecpg_clear_auto_mem [4, 6] = ([], 2, []) := by
  simpa using C4_softclear_frees_nodes_only 4 [6] (by decide)

/-- Claim C5 (code bug): when the thread has no list and the placeholder
allocation fails, `ECPGdisable_auto_mem_clear_on_exec` executes
`am->auto_clear_disabled = 1` with `am == NULL`: a null-pointer
dereference, not the claimed safe completion. -/
theorem C5_disable_on_alloc_failure_derefs_null :
    ECPGdisable_auto_mem_clear_on_exec false [] = DisableResult.nullDeref := rfl

/-- Claim C6: in `ecpg_auto_alloc`, when the payload allocation succeeds
but the tracking-node allocation fails, the fresh payload is passed to
`ecpg_free`, NULL is returned, and the thread's list is unchanged. -/
theorem C6_auto_alloc_node_failure_frees_payload (p : Nat) (s : List Nat) :
    ecpg_auto_alloc (some p) false s = (none, [p], s) := rfl

/-- Claim C7: `ecpg_strdup` on a NULL string returns NULL without raising
out-of-memory, and `ecpg_add_mem` treats a NULL pointer like any other:
it succeeds whenever the node allocation succeeds, so a NULL input is
never itself reported as an error. -/
theorem C7_null_inputs_are_not_errors :
    (∀ ok, ecpg_strdup none ok = (none, false)) ∧
    (∀ s : List Nat, (ecpg_add_mem 0 true s).1 = true) ∧
    (∀ (s : List Nat) (ok : Bool) (p : Nat),
      (ecpg_add_mem 0 ok s).1 = (ecpg_add_mem p ok s).1) := by
  refine ⟨fun ok => rfl, fun s => ?_, fun s ok p => ?_⟩
  · cases s <;> rfl
  · cases ok <;> cases s <;> rfl

/-- Claim C8 counterexample: with a platform `calloc` that returns a
non-null pointer for a zero-size request (permitted by the C standard and
what glibc does), `ecpg_alloc` at size 0 returns that pointer and raises
no out-of-memory error — contradicting the claim that size zero is
reported as an out-of-memory failure. -/
theorem C8_zero_size_counterexample :
    ecpg_alloc (fun _ => some 42) 0 = (some 42, false) := rfl

/-- Claim C8 (amended): `ecpg_alloc` returns exactly the `calloc` result
and raises the structured out-of-memory error precisely when `calloc`
returns NULL; the size value itself — zero included — is never inspected,
so the zero-size outcome is whatever the platform allocator does. -/
theorem C8_alloc_raises_oom_iff_calloc_null (calloc : Nat → Option Nat) (size : Nat) :
    ecpg_alloc calloc size = (calloc size, (calloc size).isNone) := by
  cases h : calloc size <;> simp [ecpg_alloc, h]

/-- Claim C9: a second `ECPGdisable_auto_mem_clear_on_exec` right after a
successful one is idempotent: it returns the very same list, the head's
suppression bit is (still) set, and the second call emits the
already-disabled diagnostic. -/
theorem C9_double_disable_idempotent (okA okB : Bool) (s s1 : List Nat) (w : Bool)
    (hfirst : ECPGdisable_auto_mem_clear_on_exec okA s = .ok w s1) :
    ECPGdisable_auto_mem_clear_on_exec okB s1 = .ok true s1 ∧
    ∃ h t, s1 = h :: t ∧ h % 2 = 1 := by
  cases s with
  | nil =>
    cases okA with
    | false => simp [ECPGdisable_auto_mem_clear_on_exec] at hfirst
    | true =>
      simp only [ECPGdisable_auto_mem_clear_on_exec, if_pos,
        DisableResult.ok.injEq] at hfirst
      obtain ⟨rfl, rfl⟩ := hfirst
      refine ⟨?_, setBit 0, [], rfl, setBit_odd 0⟩
      simp [ECPGdisable_auto_mem_clear_on_exec, setBit_setBit, setBit_odd 0]
  | cons h t =>
    simp only [ECPGdisable_auto_mem_clear_on_exec, DisableResult.ok.injEq] at hfirst
    obtain ⟨rfl, rfl⟩ := hfirst
    refine ⟨?_, setBit h, t, rfl, setBit_odd h⟩
    simp [ECPGdisable_auto_mem_clear_on_exec, setBit_setBit, setBit_odd h]

/-- Claim C9 witness: disabling on an empty list yields the placeholder
list, and disabling again returns it unchanged with the warning. -/
theorem C9_double_disable_idempotent_witness :
    ECPGdisable_auto_mem_clear_on_exec true [1] = .ok true [1] ∧
    ∃ h t, ([1] : List Nat) = h :: t ∧ h % 2 = 1 := by
  have hfirst : ECPGdisable_auto_mem_clear_on_exec true [] = .ok false [1] := by decide
  exact C9_double_disable_idempotent true true [] [1] false hfirst

/-- Claim C10: the registry never deduplicates: registering the same
(aligned) pointer twice via `ecpg_add_mem` yields two nodes owning it, and
`ECPGfree_auto_mem` then passes it to `ecpg_free` twice. -/
theorem C10_no_deduplication (p : Nat) (hp : p % 2 = 0) :
    (ecpg_add_mem p true (ecpg_add_mem p true []).2).2 = [p, p] ∧
    ((ECPGfree_auto_mem (ecpg_add_mem p true (ecpg_add_mem p true []).2).2).1).count p
      = 2 ∧
    (ECPGfree_auto_mem (ecpg_add_mem p true (ecpg_add_mem p true []).2).2).2.2 = [] := by
  have hstate : (ecpg_add_mem p true (ecpg_add_mem p true []).2).2 = [p, p] := by
    simp [ecpg_add_mem, hp, clearBit_of_even hp]
  refine ⟨hstate, ?_, ?_⟩
  · rw [hstate]
    simp [ECPGfree_auto_mem, clearBit_of_even hp, List.count_cons]
  · rw [hstate]
    rfl

/-- Claim C10 witness: registering pointer 42 twice and releasing frees 42
twice and unsets the list. -/
theorem C10_no_deduplication_witness :
    ((ECPGfree_auto_mem (ecpg_add_mem 42 true (ecpg_add_mem 42 true []).2).2).1).count 42
      = 2 := by
  exact (C10_no_deduplication 42 (by decide)).2.1

end EcpgMemory
